import Mathlib

/-!
Verification of the frequencies data pipeline (scripts/sources/an.py,
scripts/normalize.py, scripts/themes.py, scripts/export.py).

The Python code is shallowly embedded: XML documents become a tree type
`XElem`, Python dicts become association lists with insertion-order
semantics, Python strings become Lean `String` with helper functions that
model the Python string operations actually used (strip, lower, split,
substring test, str.isdigit, int()).  All definitions are executable.
-/

namespace Freq

/-! ## Python string primitives (modelled on lists of characters) -/

/-- Whitespace characters removed by Python str.strip (ASCII subset). -/
def isPySpace (c : Char) : Bool :=
  c == ' ' || c == '\t' || c == '\n' || c == '\r' || c == '\x0b' || c == '\x0c'

/-- Python s.strip(): drop whitespace at both ends. -/
def pyStrip (s : String) : String :=
  ⟨((s.data.dropWhile isPySpace).reverse.dropWhile isPySpace).reverse⟩

/-- Python s.lower() (ASCII model). -/
def pyLower (s : String) : String :=
  ⟨s.data.map Char.toLower⟩

/-- Python s[:n] (slice of the first n characters). -/
def pyTake (n : Nat) (s : String) : String :=
  ⟨s.data.take n⟩

/-- Is `pre` a prefix of `l`? -/
def listPre : List Char → List Char → Bool
  | [], _ => true
  | _ :: _, [] => false
  | a :: as, b :: bs => a == b && listPre as bs

def containsAux (needle : List Char) : List Char → Bool
  | [] => listPre needle []
  | c :: rest => listPre needle (c :: rest) || containsAux needle rest

/-- Python `needle in hay` substring test. -/
def strContains (hay needle : String) : Bool :=
  containsAux needle.data hay.data

/-- Strict lexicographic order on character lists by code point,
the order Python uses to compare strings. -/
def lexLt : List Char → List Char → Bool
  | [], [] => false
  | [], _ :: _ => true
  | _ :: _, [] => false
  | a :: as, b :: bs =>
    decide (a.toNat < b.toNat) || (decide (a.toNat = b.toNat) && lexLt as bs)

/-- Python s < t on strings. -/
def strLtB (a b : String) : Bool := lexLt a.data b.data

/-- Python s <= t on strings. -/
def strLe (a b : String) : Prop :=
  strLtB a b = true ∨ a = b

instance (a b : String) : Decidable (strLe a b) := by
  unfold strLe; infer_instance

/-- Python (a1, a2) <= (b1, b2) on pairs of strings (tuple comparison). -/
def pairLe (x y : String × String) : Prop :=
  strLtB x.1 y.1 = true ∨ (x.1 = y.1 ∧ strLe x.2 y.2)

instance (x y : String × String) : Decidable (pairLe x y) := by
  unfold pairLe; infer_instance

/-- Python s.isdigit() (ASCII decimal model): nonempty and all digits. -/
def pyIsDigit (s : String) : Bool :=
  !s.data.isEmpty && s.data.all Char.isDigit

/-- Numeric value of a digit string. -/
def digitsVal (s : String) : Nat :=
  s.data.foldl (fun n c => 10 * n + (c.toNat - 48)) 0

/-- Digit run accepted by Python int(): nonempty, all decimal digits. -/
def natDigits? (l : List Char) : Option Nat :=
  if l.isEmpty then none
  else if l.all Char.isDigit then some (digitsVal ⟨l⟩) else none

def pyIntOfList : List Char → Option Int
  | [] => none
  | '+' :: ds => (natDigits? ds).map Int.ofNat
  | '-' :: ds => (natDigits? ds).map fun n => -(n : Int)
  | ds => (natDigits? ds).map Int.ofNat

/-- Python int(s) on a string: strip whitespace, optional sign, digits;
`none` models the ValueError raised on any other shape. -/
def pyInt (s : String) : Option Int :=
  pyIntOfList (pyStrip s).data

/-- Python `x or d` for an optional string x: None and "" both fall back. -/
def pyOr (o : Option String) (d : String) : String :=
  match o with
  | none => d
  | some s => if s = "" then d else s

/-- Python truthiness of an optional string value. -/
def pyTruthy (o : Option String) : Bool :=
  match o with
  | none => false
  | some s => s ≠ ""

/-- Rendering of an optional string inside a Python f-string:
None prints as "None". -/
def fmtOpt (o : Option String) : String :=
  match o with
  | none => "None"
  | some s => s

/-! ## XML tree model (lxml etree elements) -/

mutual
/-- XML element: qualified tag, text before the first child, tail text
following the element, and child elements in document order. -/
inductive XElem : Type where
  | mk (tag : String) (text : String) (tailTxt : String) (children : XForest)

/-- A list of sibling elements in document order. -/
inductive XForest : Type where
  | nil : XForest
  | cons (e : XElem) (rest : XForest) : XForest
end

def XElem.tag : XElem → String
  | .mk t _ _ _ => t

def XElem.text : XElem → String
  | .mk _ tx _ _ => tx

def XElem.tailTxt : XElem → String
  | .mk _ _ tl _ => tl

def XElem.children : XElem → XForest
  | .mk _ _ _ cs => cs

/-- Build a forest from a list of elements. -/
def xf : List XElem → XForest
  | [] => .nil
  | e :: rest => .cons e (xf rest)

/-- Python tag.split("}")[-1]: the unqualified local name of a tag,
namespace prefix stripped. -/
def localName (tag : String) : String :=
  ⟨(tag.data.reverse.takeWhile (fun c => c != '}')).reverse⟩

mutual
/-- XPath string value of an element: concatenation of all text in its
subtree (its own tail excluded). -/
def XElem.sval : XElem → String
  | .mk _ tx _ cs => tx ++ svalF cs

def svalF : XForest → String
  | .nil => ""
  | .cons e rest => e.sval ++ e.tailTxt ++ svalF rest
end

mutual
/-- Strict descendants of an element in document order. -/
def XElem.descendants : XElem → List XElem
  | .mk _ _ _ cs => descF cs

def descF : XForest → List XElem
  | .nil => []
  | .cons e rest => e :: e.descendants ++ descF rest
end

/-- First strict descendant with the given local name
(XPath .//*[local-name()=name][1] under string()). -/
def firstDesc (e : XElem) (name : String) : Option XElem :=
  e.descendants.find? fun d => localName d.tag == name

/-- String value of an optional element, "" for an empty node set. -/
def svalOf (o : Option XElem) : String :=
  match o with
  | none => ""
  | some d => d.sval

/-- scripts/sources/an.py _first_text: trimmed text of the first descendant
with the given local name, empty-after-trim mapped to None. -/
def firstText (e : XElem) (name : String) : Option String :=
  let v := pyStrip (svalOf (firstDesc e name))
  if v = "" then none else some v

mutual
/-- Elements lying strictly below a descendant whose local name is `outer`
(document order): the node set of .//*[local-name()=outer]//* restricted
to a given forest with a flag telling whether an `outer` ancestor was
already crossed. -/
def underE (outer : String) (inside : Bool) : XElem → List XElem
  | .mk tg _ _ cs => underF outer (inside || localName tg == outer) cs

def underF (outer : String) : Bool → XForest → List XElem
  | _, .nil => []
  | inside, .cons e rest =>
    (if inside then [e] else []) ++ underE outer inside e ++ underF outer inside rest
end

/-- First element with local name `inner` lying strictly below a strict
descendant of `e` with local name `outer`
(XPath .//*[local-name()=outer]//*[local-name()=inner][1] under string()). -/
def underFind (e : XElem) (outer inner : String) : Option XElem :=
  (underF outer false e.children).find? fun d => localName d.tag == inner

/-! ## scripts/sources/an.py helpers -/

def AN_LEGISLATURE : String := "17"

/-- _date_only: strip, then keep the part before the first "T". -/
def dateOnly (o : Option String) : Option String :=
  match o with
  | none => none
  | some s => some ⟨(pyStrip s).data.takeWhile fun c => c != 'T'⟩

/-- _norm_result: map result text containing "adopt" to "adopted",
containing "rejet" to "rejected", else the lowercased original. -/
def normResult (o : Option String) : Option String :=
  match o with
  | none => none
  | some s =>
    let low := pyLower (pyStrip s)
    if strContains low "adopt" then some "adopted"
    else if strContains low "rejet" then some "rejected"
    else some low

/-! ## Vote extraction (_extract_votes) -/

/-- One vote dict as built by _extract_votes and later enriched. -/
structure Vote where
  person_id : String
  position : String
  group : Option String
  constituency : Option String
  name : Option String
  group_name : Option String
  group_acronym : Option String
deriving DecidableEq

/-- The fixed ancestor bucket vocabulary mapping local names to positions. -/
def bucketToPos (l : String) : Option String :=
  if l = "pour" then some "FOR"
  else if l = "pours" then some "FOR"
  else if l = "contre" then some "AGAINST"
  else if l = "contres" then some "AGAINST"
  else if l = "abstention" then some "ABSTAIN"
  else if l = "abstentions" then some "ABSTAIN"
  else if l = "nonVotant" then some "NONVOTING"
  else if l = "nonvotant" then some "NONVOTING"
  else if l = "nonVotants" then some "NONVOTING"
  else none

/-- Group candidate carried by an ancestor: the trimmed string value of its
first organeRef descendant, when nonempty. -/
def organeOf (c : XElem) : Option String :=
  let g := pyStrip (svalOf (firstDesc c "organeRef"))
  if g = "" then none else some g

/-- Position update at one ancestor: the first bucket match wins and is
never overwritten. -/
def posStep (pos : Option String) (c : XElem) : Option String :=
  match pos with
  | some p => some p
  | none => bucketToPos (localName c.tag)

/-- Group update at one ancestor: the first nonempty organeRef wins. -/
def grpStep (grp : Option String) (c : XElem) : Option String :=
  match grp with
  | some g => some g
  | none => organeOf c

/-- The bounded upward walk of _extract_votes: visit up to `fuel` ancestors
(closest first), resolve position from the bucket vocabulary and group from
organeRef, first match wins for each, stop early when both are known. -/
def walkAnc : Nat → List XElem → Option String → Option String →
    Option String × Option String
  | 0, _, pos, grp => (pos, grp)
  | _ + 1, [], pos, grp => (pos, grp)
  | n + 1, c :: rest, pos, grp =>
    if (posStep pos c).isSome && (grpStep grp c).isSome
    then (posStep pos c, grpStep grp c)
    else walkAnc n rest (posStep pos c) (grpStep grp c)

mutual
/-- All acteurRef descendants paired with their ancestor chains
(closest ancestor first), document order. -/
def collectE (anc : List XElem) : XElem → List (XElem × List XElem)
  | .mk tg tx tl cs =>
    let e := XElem.mk tg tx tl cs
    (if localName tg == "acteurRef" then [(e, anc)] else []) ++
      collectF (e :: anc) cs

def collectF (anc : List XElem) : XForest → List (XElem × List XElem)
  | .nil => []
  | .cons e rest => collectE anc e ++ collectF anc rest
end

/-- Actor references of a scrutin node with their ancestor chains. -/
def actorRefs (root : XElem) : List (XElem × List XElem) :=
  collectF [root] root.children

/-- Build the vote dict from a resolved walk; no position means no record. -/
def mkVote (pid : String) : Option String × Option String → Option Vote
  | (none, _) => none
  | (some pos, grp) => some ⟨pid, pos, grp, none, none, none, none⟩

/-- Votes before deduplication, in traversal order: references whose trimmed
text is empty or whose walk resolves no position are dropped. -/
def rawVotes (root : XElem) : List Vote :=
  (actorRefs root).filterMap fun p =>
    if pyStrip p.1.text = "" then none
    else mkVote (pyStrip p.1.text) (walkAnc 30 p.2 none none)

def voteKey (v : Vote) : String × String × Option String :=
  (v.person_id, v.position, v.group)

/-- Deduplication by (person_id, position, group), first occurrence kept. -/
def dedupVotes (seen : List (String × String × Option String)) :
    List Vote → List Vote
  | [] => []
  | v :: vs =>
    if voteKey v ∈ seen then dedupVotes seen vs
    else v :: dedupVotes (voteKey v :: seen) vs

/-- _extract_votes: raw votes deduplicated by (person_id, position, group). -/
def extractVotes (root : XElem) : List Vote :=
  dedupVotes [] (rawVotes root)

/-! ## _parse_one_xml -/

/-- Parser output record (one scrutin dict).  counts is the mapping built
in fixed key order; none models the Python None replacing an empty dict. -/
structure RawScrutin where
  id : String
  date : String
  title : String
  object : Option String
  scrutin_type : Option String
  result_status : Option String
  counts : Option (List (String × Nat))
  source_url : Option String
  votes : List Vote
deriving DecidableEq

/-- Trimmed string value of the first descendant named `lname` lying under a
decompte container. -/
def decompteText (el : XElem) (lname : String) : String :=
  pyStrip (svalOf (underFind el "decompte" lname))

/-- count_of: accept the value only when it is all decimal digits. -/
def countOf (el : XElem) (lname : String) : Option Nat :=
  if pyIsDigit (decompteText el lname)
  then some (digitsVal (decompteText el lname)) else none

/-- The four (output key, source local name) tally pairs, in order. -/
def keyPairs : List (String × String) :=
  [("for", "pour"), ("against", "contre"),
   ("abstention", "abstention"), ("nonvoting", "nonVotant")]

/-- The counts dict entries, in insertion order. -/
def countsList (el : XElem) : List (String × Nat) :=
  keyPairs.filterMap fun p => (countOf el p.2).map fun n => (p.1, n)

/-- counts after the final `if not counts: counts = None`. -/
def countsOf (el : XElem) : Option (List (String × Nat)) :=
  if countsList el = [] then none else some (countsList el)

/-- scrutin_type: label under typeScrutin, falling back to the first
typeScrutin text. -/
def scrutinTypeOf (el : XElem) : Option String :=
  let st := pyStrip (svalOf (underFind el "typeScrutin" "libelle"))
  if st = "" then firstText el "typeScrutin" else some st

/-- result_status: normalized text of syntheseVote//resultat. -/
def resultStatusOf (el : XElem) : Option String :=
  let rs := pyStrip (svalOf (underFind el "syntheseVote" "resultat"))
  normResult (if rs = "" then none else some rs)

/-- _parse_one_xml on a successfully parsed document: the root itself is
treated as the scrutin element and exactly one record is returned
(a stream that fails to parse yields the empty list instead). -/
def parseOneXml (root : XElem) : List RawScrutin :=
  let numero := pyOr (firstText root "numero") "UNKNOWN"
  let date := pyOr (dateOnly (firstText root "dateScrutin")) "1970-01-01"
  let title := pyOr (firstText root "objet") "(sans titre)"
  [{ id := "AN-" ++ AN_LEGISLATURE ++ "-" ++ numero
     date := date
     title := title
     object := none
     scrutin_type := scrutinTypeOf root
     result_status := resultStatusOf root
     counts := countsOf root
     source_url := none
     votes := extractVotes root }]

/-! ## Ordering by (date, id), Python sort(key=..., reverse=True) -/

/-- Descending comparison by a (date, id) style key: a comes no later than b
when the key of b is at most the key of a. -/
def byKeyGE {α : Type} (key : α → String × String) (a b : α) : Prop :=
  pairLe (key b) (key a)

instance {α : Type} (key : α → String × String) :
    DecidableRel (byKeyGE key) := fun a b => by
  unfold byKeyGE; infer_instance

/-- Ascending comparison by a string-pair key. -/
def byKeyLe {α : Type} (key : α → String × String) (a b : α) : Prop :=
  pairLe (key a) (key b)

instance {α : Type} (key : α → String × String) :
    DecidableRel (byKeyLe key) := fun a b => by
  unfold byKeyLe; infer_instance

def rawKey (s : RawScrutin) : String × String := (s.date, s.id)

/-! ## fetch_an_scrutins post-processing: dedup by id, sort, truncate -/

/-- Insert into an association list with Python dict semantics: an existing
key keeps its position and takes the new value, a new key is appended. -/
def dictInsert {β : Type} (m : List (String × β)) (k : String) (v : β) :
    List (String × β) :=
  if m.any fun p => p.1 == k then
    m.map fun p => if p.1 == k then (p.1, v) else p
  else m ++ [(k, v)]

/-- Deduplicate scrutins by id, last occurrence winning
(by_id dict then list(by_id.values())). -/
def dedupById (l : List RawScrutin) : List RawScrutin :=
  (l.foldl (fun m s => dictInsert m s.id s) []).map fun p => p.2

/-- The tail of fetch_an_scrutins: dedup by id, sort descending by
(date, id), truncate to the caller-supplied limit. -/
def postProcess (l : List RawScrutin) (limit : Nat) : List RawScrutin :=
  (List.insertionSort (byKeyGE rawKey) (dedupById l)).take limit

/-! ## scripts/normalize.py -/

/-- Canonical cross-chamber scrutin. -/
structure Scrutin where
  id : String
  chamber : String
  date : String
  title : String
  object : Option String
  scrutin_type : Option String
  result_status : Option String
  counts : Option (List (String × Nat))
  themes : List String
  source_url : Option String
  votes : List Vote
deriving DecidableEq

/-- normalize_an: pure reshape, chamber fixed to "AN", themes emptied. -/
def normalizeAN (raw : List RawScrutin) : List Scrutin :=
  raw.map fun s =>
    { id := s.id
      chamber := "AN"
      date := s.date
      title := s.title
      object := s.object
      scrutin_type := s.scrutin_type
      result_status := s.result_status
      counts := s.counts
      themes := []
      source_url := s.source_url
      votes := s.votes }

/-! ## scripts/themes.py -/

structure Theme where
  slug : String
  label : String
  keywords : List String
deriving DecidableEq

structure ThemeCfg where
  themes : List Theme
  overrides : List (String × List String)
deriving DecidableEq

/-- The lowercased haystack f-string built from title and object; a None
object renders as the literal text "None". -/
def hayOf (s : Scrutin) : String :=
  pyLower (s.title ++ " " ++ fmtOpt s.object)

/-- Slugs of the themes one of whose keywords occurs in the haystack,
in configuration order, with repeats. -/
def foundSlugs (cfg : ThemeCfg) (s : Scrutin) : List String :=
  cfg.themes.filterMap fun t =>
    if t.keywords.any (fun kw => strContains (hayOf s) (pyLower kw))
    then some t.slug else none

/-- assign_themes on one scrutin: override when present, else the sorted
set of keyword-matched slugs. -/
def assignOne (cfg : ThemeCfg) (s : Scrutin) : Scrutin :=
  match cfg.overrides.lookup s.id with
  | some ts => { s with themes := ts }
  | none =>
    { s with themes := List.insertionSort strLe (foundSlugs cfg s).dedup }

/-- assign_themes over the whole collection. -/
def assignThemes (scrutins : List Scrutin) (cfg : ThemeCfg) : List Scrutin :=
  scrutins.map (assignOne cfg)

/-! ## scripts/export.py -/

/-- Index projection of a scrutin (summary fields only). -/
structure IndexEntry where
  id : String
  chamber : String
  date : String
  title : String
  scrutin_type : Option String
  result_status : Option String
  counts : Option (List (String × Nat))
  themes : List String
  source_url : Option String
deriving DecidableEq

def ixProj (s : Scrutin) : IndexEntry :=
  { id := s.id
    chamber := s.chamber
    date := s.date
    title := s.title
    scrutin_type := s.scrutin_type
    result_status := s.result_status
    counts := s.counts
    themes := s.themes
    source_url := s.source_url }

def ixKey (e : IndexEntry) : String × String := (e.date, e.id)

/-- The index document items: all scrutins projected, sorted descending by
(date, id). -/
def indexItems (scrutins : List Scrutin) : List IndexEntry :=
  List.insertionSort (byKeyGE ixKey) (scrutins.map ixProj)

/-- One entry of the people directory.  group and constituency are absent
(none) until a truthy value is seen. -/
structure PersonEntry where
  person_id : String
  name : Option String
  chamber : String
  group : Option String
  constituency : Option String
deriving DecidableEq

/-- The dict created when a person_id is first seen. -/
def initE (chamber : String) (v : Vote) : PersonEntry :=
  { person_id := v.person_id, name := v.name, chamber := chamber,
    group := none, constituency := none }

def absorbGroup (e : PersonEntry) (v : Vote) : PersonEntry :=
  if pyTruthy v.group then { e with group := v.group } else e

def absorbConstituency (e : PersonEntry) (v : Vote) : PersonEntry :=
  if pyTruthy v.constituency then { e with constituency := v.constituency }
  else e

def absorbName (e : PersonEntry) (v : Vote) : PersonEntry :=
  if pyTruthy v.name then { e with name := v.name } else e

/-- The three truthiness-guarded field updates applied for every vote. -/
def absorb (e : PersonEntry) (v : Vote) : PersonEntry :=
  absorbName (absorbConstituency (absorbGroup e v) v) v

/-- Processing of one (chamber, vote) pair against the people map. -/
def stepPerson (m : List (String × PersonEntry)) (cv : String × Vote) :
    List (String × PersonEntry) :=
  let pid := cv.2.person_id
  if (m.lookup pid).isSome then
    m.map fun p => if p.1 == pid then (p.1, absorb p.2 cv.2) else p
  else m ++ [(pid, absorb (initE cv.1 cv.2) cv.2)]

/-- All votes of all scrutins in scan order, paired with their chamber. -/
def flatVotes (scrutins : List Scrutin) : List (String × Vote) :=
  scrutins.flatMap fun s => s.votes.map fun v => (s.chamber, v)

/-- The people map after the full scan. -/
def peopleMap (scrutins : List Scrutin) : List (String × PersonEntry) :=
  (flatVotes scrutins).foldl stepPerson []

/-- Folding the per-vote update over (chamber, vote) pairs. -/
def absorbs (e : PersonEntry) (l : List (String × Vote)) : PersonEntry :=
  l.foldl (fun e cv => absorb e cv.2) e

/-- The subsequence of the scan belonging to one person id. -/
def pidVotes (pid : String) (l : List (String × Vote)) :
    List (String × Vote) :=
  l.filter fun cv => cv.2.person_id == pid

/-- The entry accumulated by one person id over its own votes: initialized
from the first, updated by each in turn. -/
def perPid : List (String × Vote) → Option PersonEntry
  | [] => none
  | cv :: rest => some (absorbs (absorb (initE cv.1 cv.2) cv.2) rest)

/-- Python sort key ((p.get("name") or ""), p["person_id"]). -/
def personKey (p : PersonEntry) : String × String :=
  (pyOr p.name "", p.person_id)

/-- The people document list, sorted ascending by (name-or-empty, id). -/
def peopleList (scrutins : List Scrutin) : List PersonEntry :=
  List.insertionSort (byKeyLe personKey) ((peopleMap scrutins).map fun p => p.2)

def scrKey (s : Scrutin) : String × String := (s.date, s.id)

/-- defaultdict(list) append keyed by year. -/
def insertYear (m : List (Int × List Scrutin)) (y : Int) (s : Scrutin) :
    List (Int × List Scrutin) :=
  if m.any fun p => p.1 == y then
    m.map fun p => if p.1 == y then (p.1, p.2 ++ [s]) else p
  else m ++ [(y, [s])]

/-- The by_year grouping loop: int(s["date"][:4]) keys; none models the
unhandled ValueError raised at the first unparseable date. -/
def byYearAux (m : List (Int × List Scrutin)) :
    List Scrutin → Option (List (Int × List Scrutin))
  | [] => some m
  | s :: rest =>
    match pyInt (pyTake 4 s.date) with
    | none => none
    | some y => byYearAux (insertYear m y s) rest

/-- The per-year detail files: partition by year, each partition sorted
descending by (date, id). -/
def exportYears (scrutins : List Scrutin) :
    Option (List (Int × List Scrutin)) :=
  (byYearAux [] scrutins).map fun parts =>
    parts.map fun p => (p.1, List.insertionSort (byKeyGE scrKey) p.2)

/-- export_all: index, people directory and per-year files; none models the
run aborting with an unhandled exception. -/
def exportAll (scrutins : List Scrutin) :
    Option (List IndexEntry × List PersonEntry × List (Int × List Scrutin)) :=
  (exportYears scrutins).map fun ys =>
    (indexItems scrutins, peopleList scrutins, ys)

/-! ## Order lemmas for the (date, id) comparisons -/

lemma charEq_of_toNat {a b : Char} (h : a.toNat = b.toNat) : a = b :=
  Char.ext (UInt32.ext (by exact_mod_cast h))

lemma lexLt_trans : ∀ {a b c : List Char},
    lexLt a b = true → lexLt b c = true → lexLt a c = true := by
  intro a
  induction a with
  | nil =>
    intro b c hab hbc
    cases b with
    | nil => simp [lexLt] at hab
    | cons y bs => cases c with
      | nil => simp [lexLt] at hbc
      | cons z cs => simp [lexLt]
  | cons x as ih =>
    intro b c hab hbc
    cases b with
    | nil => simp [lexLt] at hab
    | cons y bs =>
      cases c with
      | nil => simp [lexLt] at hbc
      | cons z cs =>
        simp only [lexLt, Bool.or_eq_true, Bool.and_eq_true,
          decide_eq_true_eq] at hab hbc ⊢
        rcases hab with h1 | ⟨e1, h1⟩
        · rcases hbc with h2 | ⟨e2, _⟩
          · exact Or.inl (by omega)
          · exact Or.inl (by omega)
        · rcases hbc with h2 | ⟨e2, h2⟩
          · exact Or.inl (by omega)
          · exact Or.inr ⟨by omega, ih h1 h2⟩

lemma lexLt_total : ∀ (a b : List Char),
    lexLt a b = true ∨ a = b ∨ lexLt b a = true := by
  intro a
  induction a with
  | nil =>
    intro b
    cases b with
    | nil => right; left; rfl
    | cons y bs => left; simp [lexLt]
  | cons x as ih =>
    intro b
    cases b with
    | nil => right; right; simp [lexLt]
    | cons y bs =>
      rcases Nat.lt_trichotomy x.toNat y.toNat with h1 | h1 | h1
      · left; simp [lexLt, h1]
      · have hxy : x = y := charEq_of_toNat h1
        rcases ih bs with h | h | h
        · left; simp [lexLt, h1, h]
        · right; left; rw [hxy, h]
        · right; right; simp [lexLt, h1.symm, h]
      · right; right; simp [lexLt, h1]

lemma strLtB_trans {a b c : String}
    (hab : strLtB a b = true) (hbc : strLtB b c = true) : strLtB a c = true :=
  lexLt_trans hab hbc

lemma strLtB_total (a b : String) :
    strLtB a b = true ∨ a = b ∨ strLtB b a = true := by
  rcases lexLt_total a.data b.data with h | h | h
  · exact Or.inl h
  · exact Or.inr (Or.inl (congrArg String.mk h))
  · exact Or.inr (Or.inr h)

lemma strLe_trans {a b c : String}
    (hab : strLe a b) (hbc : strLe b c) : strLe a c := by
  rcases hab with h1 | rfl
  · rcases hbc with h2 | rfl
    · exact Or.inl (strLtB_trans h1 h2)
    · exact Or.inl h1
  · exact hbc

lemma strLe_total (a b : String) : strLe a b ∨ strLe b a := by
  rcases strLtB_total a b with h | rfl | h
  · exact Or.inl (Or.inl h)
  · exact Or.inl (Or.inr rfl)
  · exact Or.inr (Or.inl h)

lemma pairLe_trans {x y z : String × String}
    (hab : pairLe x y) (hbc : pairLe y z) : pairLe x z := by
  rcases hab with h1 | ⟨e1, h1⟩
  · rcases hbc with h2 | ⟨e2, _⟩
    · exact Or.inl (strLtB_trans h1 h2)
    · exact Or.inl (e2 ▸ h1)
  · rcases hbc with h2 | ⟨e2, h2⟩
    · exact Or.inl (e1 ▸ h2)
    · exact Or.inr ⟨e1.trans e2, strLe_trans h1 h2⟩

lemma pairLe_total (x y : String × String) : pairLe x y ∨ pairLe y x := by
  rcases strLtB_total x.1 y.1 with h | e | h
  · exact Or.inl (Or.inl h)
  · rcases strLe_total x.2 y.2 with h2 | h2
    · exact Or.inl (Or.inr ⟨e, h2⟩)
    · exact Or.inr (Or.inr ⟨e.symm, h2⟩)
  · exact Or.inr (Or.inl h)

instance {α : Type} (key : α → String × String) : IsTotal α (byKeyGE key) :=
  ⟨fun a b => Or.symm (pairLe_total (key a) (key b))⟩

instance {α : Type} (key : α → String × String) : IsTrans α (byKeyGE key) :=
  ⟨fun _ _ _ h1 h2 => pairLe_trans h2 h1⟩

instance {α : Type} (key : α → String × String) : IsTotal α (byKeyLe key) :=
  ⟨fun a b => pairLe_total (key a) (key b)⟩

instance {α : Type} (key : α → String × String) : IsTrans α (byKeyLe key) :=
  ⟨fun _ _ _ h1 h2 => pairLe_trans h1 h2⟩

instance : IsTotal String strLe := ⟨strLe_total⟩

instance : IsTrans String strLe := ⟨fun _ _ _ => strLe_trans⟩

/-! ## Claim C7: overrides are absolute -/

/-- C7: a canonical scrutin whose id appears in the overrides mapping gets
exactly the override theme list; keyword matching is bypassed entirely, so
the title content is irrelevant. -/
theorem claim7_override_absolute (cfg : ThemeCfg) (s : Scrutin)
    (ts : List String) (h : cfg.overrides.lookup s.id = some ts) :
    (assignOne cfg s).themes = ts := by
  simp [assignOne, h]

def c7cfg : ThemeCfg :=
  { themes := [{ slug := "budget", label := "Budget", keywords := ["budget"] }]
    overrides := [("AN-17-1", ["sante"])] }

def c7s : Scrutin :=
  { id := "AN-17-1", chamber := "AN", date := "2024-06-01",
    title := "budget budget budget", object := none, scrutin_type := none,
    result_status := none, counts := none, themes := [], source_url := none,
    votes := [] }

/-- C7 witness: a scrutin whose title is all budget keywords still receives
the literal override list. -/
theorem claim7_witness :
    c7cfg.overrides.lookup c7s.id = some ["sante"] ∧
    (assignOne c7cfg c7s).themes = ["sante"] :=
  ⟨by decide, claim7_override_absolute c7cfg c7s ["sante"] (by decide)⟩

/-! ## Claim C1: parser output count (corrected) -/

def c1root : XElem :=
  .mk "scrutins" "" "" (xf [
    .mk "scrutin" "" "" (xf [.mk "numero" "1" "" (xf [])]),
    .mk "scrutin" "" "" (xf [.mk "numero" "2" "" (xf [])])])

/-- C1 counterexample: a container root holding two scrutin elements still
yields exactly one RawScrutin, not one per scrutin descendant as claimed. -/
theorem claim1_counterexample :
    (parseOneXml c1root).length = 1 ∧
    (c1root.descendants.filter fun d => localName d.tag == "scrutin").length
      = 2 ∧
    (parseOneXml c1root).length ≠
      (c1root.descendants.filter fun d => localName d.tag == "scrutin").length
    := by
  refine ⟨by decide, by decide, by decide⟩

/-- C1 amended: for every successfully parsed XML document the parser emits
exactly one RawScrutin, built from the document root (its votes are the
root extraction, its id composed from the first numero text); the legacy
multi-scrutin shape is not expanded into several records. -/
theorem claim1_single_record (root : XElem) :
    (parseOneXml root).length = 1 ∧
    (parseOneXml root).head?.map RawScrutin.votes = some (extractVotes root) ∧
    (parseOneXml root).head?.map RawScrutin.id =
      some ("AN-" ++ AN_LEGISLATURE ++ "-" ++
        pyOr (firstText root "numero") "UNKNOWN") := by
  refine ⟨rfl, rfl, rfl⟩

/-! ## Claim C8: integer tallies -/

lemma countsOf_getD (el : XElem) : (countsOf el).getD [] = countsList el := by
  unfold countsOf
  split <;> simp_all

lemma countOf_eq_some {el : XElem} {ln : String} {n : Nat}
    (h : countOf el ln = some n) :
    pyIsDigit (decompteText el ln) = true ∧
    n = digitsVal (decompteText el ln) := by
  unfold countOf at h
  split at h
  · exact ⟨by assumption, (Option.some_injective _ h).symm⟩
  · exact absurd h (by simp)

lemma countOf_eq_none {el : XElem} {ln : String} :
    countOf el ln = none ↔ pyIsDigit (decompteText el ln) = false := by
  unfold countOf
  split <;> simp_all

/-- C8: for each of the four tally keys, the key is present in counts with
value n exactly when the trimmed text of the first matching descendant
under a decompte container is all decimal digits with value n; the whole
counts mapping is None exactly when no key resolves. -/
theorem claim8_counts (root : XElem) (s : RawScrutin)
    (hs : s ∈ parseOneXml root) :
    (∀ p ∈ s.counts.getD [], ∃ ln, (p.1, ln) ∈ keyPairs ∧
        pyIsDigit (decompteText root ln) = true ∧
        p.2 = digitsVal (decompteText root ln)) ∧
    (∀ k ln, (k, ln) ∈ keyPairs → pyIsDigit (decompteText root ln) = true →
        (k, digitsVal (decompteText root ln)) ∈ s.counts.getD []) ∧
    (s.counts = none ↔
      ∀ k ln, (k, ln) ∈ keyPairs →
        pyIsDigit (decompteText root ln) = false) := by
  have hcounts : s.counts = countsOf root := by
    simp only [parseOneXml, List.mem_singleton] at hs
    rw [hs]
  refine ⟨?_, ?_, ?_⟩
  · intro p hp
    rw [hcounts, countsOf_getD] at hp
    unfold countsList at hp
    rcases List.mem_filterMap.mp hp with ⟨q, hq, hfq⟩
    rcases Option.map_eq_some'.mp hfq with ⟨n, hn, hpn⟩
    rcases countOf_eq_some hn with ⟨hdig, hval⟩
    exact ⟨q.2, by rw [← hpn]; exact hq, hdig, by rw [← hpn]; exact hval⟩
  · intro k ln hk hdig
    rw [hcounts, countsOf_getD]
    unfold countsList
    refine List.mem_filterMap.mpr ⟨(k, ln), hk, ?_⟩
    unfold countOf
    simp [hdig]
  · rw [hcounts]
    unfold countsOf
    constructor
    · intro h k ln hk
      have hnil : countsList root = [] := by
        by_contra hne
        simp [hne] at h
      have := (List.filterMap_eq_nil_iff).mp hnil (k, ln) hk
      rcases hcase : countOf root ln with _ | n
      · exact countOf_eq_none.mp hcase
      · simp [hcase] at this
    · intro h
      have hnil : countsList root = [] := by
        refine List.filterMap_eq_nil_iff.mpr ?_
        intro p hp
        have := h p.1 p.2 hp
        simp [countOf_eq_none.mpr this]
      simp [hnil]

def c8root : XElem :=
  .mk "scrutin" "" "" (xf [
    .mk "syntheseVote" "" "" (xf [
      .mk "decompte" "" "" (xf [
        .mk "pour" "10" "" (xf []),
        .mk "contre" " 5x" "" (xf []),
        .mk "nonVotant" "  " "" (xf [])])])])

def c8s : RawScrutin :=
  { id := "AN-17-UNKNOWN", date := "1970-01-01", title := "(sans titre)",
    object := none, scrutin_type := none, result_status := none,
    counts := some [("for", 10)], source_url := none, votes := [] }

/-- C8 witness: a decompte with pour text 10 yields the key for with
value 10. -/
theorem claim8_witness :
    ("for", digitsVal (decompteText c8root "pour")) ∈ c8s.counts.getD [] :=
  (claim8_counts c8root c8s (by decide)).2.1 "for" "pour" (by decide)
    (by decide)

/-! ## Claim C2: keyword theme assignment (corrected) -/

/-- Theme list computed following the claim wording: the haystack is the
plain concatenation of title and object, a missing part contributing the
empty string.  Kept for comparison with the code, which joins the two
fields with one space inside an f-string, rendering a None object as the
text "None". -/
def claimHayC2 (s : Scrutin) : String :=
  pyLower (s.title ++ s.object.getD "")

def claimThemesC2 (cfg : ThemeCfg) (s : Scrutin) : List String :=
  List.insertionSort strLe
    (cfg.themes.filterMap fun t =>
      if t.keywords.any (fun kw => strContains (claimHayC2 s) (pyLower kw))
      then some t.slug else none).dedup

def c2cfg : ThemeCfg :=
  { themes := [{ slug := "n", label := "N", keywords := ["none"] }]
    overrides := [] }

def c2s : Scrutin :=
  { id := "AN-17-2", chamber := "AN", date := "2024-06-01",
    title := "x", object := none, scrutin_type := none,
    result_status := none, counts := none, themes := [], source_url := none,
    votes := [] }

/-- C2 counterexample: with title "x" and object None, the claimed haystack
is "x", matching no keyword, but the code haystack is "x none" (the
f-string renders None), so the keyword "none" matches and the code assigns
the slug. -/
theorem claim2_counterexample :
    (assignOne c2cfg c2s).themes = ["n"] ∧
    claimThemesC2 c2cfg c2s = [] ∧
    (assignOne c2cfg c2s).themes ≠ claimThemesC2 c2cfg c2s := by
  refine ⟨by decide, by decide, by decide⟩

/-- C2 amended: for a scrutin whose id is not in overrides, the theme list
is the lexicographically sorted set of slugs of exactly the configured
themes with some keyword occurring (case-insensitively) in the haystack,
where the haystack is the lowercased f-string joining title and object
with one space and rendering a None object as the text "None". -/
theorem claim2_keyword_assignment (cfg : ThemeCfg) (s : Scrutin)
    (h : cfg.overrides.lookup s.id = none) :
    List.Sorted strLe (assignOne cfg s).themes ∧
    (assignOne cfg s).themes.Nodup ∧
    ∀ slug, slug ∈ (assignOne cfg s).themes ↔
      ∃ t ∈ cfg.themes, t.slug = slug ∧
        ∃ kw ∈ t.keywords, strContains (hayOf s) (pyLower kw) = true := by
  have hth : (assignOne cfg s).themes =
      List.insertionSort strLe (foundSlugs cfg s).dedup := by
    simp [assignOne, h]
  rw [hth]
  refine ⟨List.sorted_insertionSort strLe _, ?_, ?_⟩
  · exact ((List.perm_insertionSort strLe _).nodup_iff).mpr
      (List.nodup_dedup _)
  · intro slug
    rw [(List.perm_insertionSort strLe _).mem_iff, List.mem_dedup]
    unfold foundSlugs
    rw [List.mem_filterMap]
    constructor
    · rintro ⟨t, ht, hft⟩
      by_cases hc : t.keywords.any (fun kw => strContains (hayOf s) (pyLower kw))
      · rcases List.any_eq_true.mp hc with ⟨kw, hkw, hmatch⟩
        refine ⟨t, ht, ?_, kw, hkw, hmatch⟩
        simp [hc] at hft
        exact hft
      · simp [hc] at hft
    · rintro ⟨t, ht, hslug, kw, hkw, hmatch⟩
      refine ⟨t, ht, ?_⟩
      have hc : t.keywords.any (fun kw => strContains (hayOf s) (pyLower kw))
          = true := List.any_eq_true.mpr ⟨kw, hkw, hmatch⟩
      simp [hc, hslug]

def c2wcfg : ThemeCfg :=
  { themes := [{ slug := "budget", label := "Budget", keywords := ["budget"] }]
    overrides := [] }

def c2ws : Scrutin :=
  { id := "AN-17-3", chamber := "AN", date := "2024-06-01",
    title := "Projet de loi relatif au budget", object := none,
    scrutin_type := none, result_status := none,
    counts := some [("for", 10), ("against", 5)], themes := [],
    source_url := none, votes := [] }

/-- C2 witness: the budget scenario from the spec; via the amended theorem
the slug budget is assigned, and the resulting list is exactly it. -/
theorem claim2_witness :
    "budget" ∈ (assignOne c2wcfg c2ws).themes ∧
    (assignOne c2wcfg c2ws).themes = ["budget"] :=
  ⟨((claim2_keyword_assignment c2wcfg c2ws (by decide)).2.2 "budget").mpr
      ⟨{ slug := "budget", label := "Budget", keywords := ["budget"] },
       by decide, rfl, "budget", by decide, by decide⟩,
   by decide⟩

/-! ## Claim C4: dedup by id, sort descending, truncate -/

lemma byIdFold_inv :
    ∀ (l : List RawScrutin) (m : List (String × RawScrutin)),
    (m.map Prod.fst).Nodup → (∀ p ∈ m, p.2.id = p.1) →
    (((l.foldl (fun m s => dictInsert m s.id s) m).map Prod.fst).Nodup ∧
      ∀ p ∈ l.foldl (fun m s => dictInsert m s.id s) m, p.2.id = p.1) := by
  intro l
  induction l with
  | nil => intro m h1 h2; exact ⟨h1, h2⟩
  | cons s rest ih =>
    intro m h1 h2
    simp only [List.foldl_cons]
    apply ih
    · unfold dictInsert
      by_cases hc : m.any fun p => p.1 == s.id
      · rw [if_pos hc, List.map_map]
        have : m.map (Prod.fst ∘ fun p => if p.1 == s.id then (p.1, s) else p)
            = m.map Prod.fst := by
          apply List.map_congr_left
          intro p _
          simp only [Function.comp_apply]
          split <;> rfl
        rw [this]; exact h1
      · rw [if_neg hc, List.map_append]
        simp only [List.map_cons, List.map_nil]
        rw [List.nodup_append]
        refine ⟨h1, List.nodup_singleton _, ?_⟩
        intro a ha hb
        simp only [List.mem_singleton] at hb
        subst hb
        rcases List.mem_map.mp ha with ⟨p, hp, hfst⟩
        exact hc (List.any_eq_true.mpr ⟨p, hp, by simp [hfst]⟩)
    · intro p hp
      unfold dictInsert at hp
      by_cases hc : m.any fun q => q.1 == s.id
      · rw [if_pos hc] at hp
        rcases List.mem_map.mp hp with ⟨q, hq, hupd⟩
        by_cases hq1 : q.1 == s.id
        · simp only [hq1, if_true] at hupd
          rw [← hupd]
          simpa using (eq_of_beq hq1).symm
        · simp only [hq1] at hupd
          simp only [Bool.false_eq_true, if_false] at hupd
          rw [← hupd]; exact h2 q hq
      · rw [if_neg hc] at hp
        rcases List.mem_append.mp hp with hq | hq
        · exact h2 p hq
        · simp only [List.mem_singleton] at hq
          rw [hq]

lemma dedupById_ids_nodup (l : List RawScrutin) :
    ((dedupById l).map RawScrutin.id).Nodup := by
  unfold dedupById
  obtain ⟨h1, h2⟩ := byIdFold_inv l [] (by simp) (by simp)
  rw [List.map_map]
  have : (l.foldl (fun m s => dictInsert m s.id s) []).map
      (RawScrutin.id ∘ fun p => p.2)
      = (l.foldl (fun m s => dictInsert m s.id s) []).map Prod.fst :=
    List.map_congr_left fun p hp => h2 p hp
  rw [this]; exact h1

/-- C4: after dedup by id with last occurrence winning, every id is unique
in the final collection, the collection is the descending (date, id) sort
of the deduplicated set truncated to the limit, its length is the minimum
of limit and the number of distinct ids, and every retained scrutin
compares at least as recent as every dropped one. -/
theorem claim4_dedup_sort_truncate (l : List RawScrutin) (n : Nat) :
    ((postProcess l n).map RawScrutin.id).Nodup ∧
    postProcess l n =
      (List.insertionSort (byKeyGE rawKey) (dedupById l)).take n ∧
    List.Sorted (byKeyGE rawKey) (postProcess l n) ∧
    (postProcess l n).length = min n (dedupById l).length ∧
    (postProcess l n).Forall fun x =>
      ((List.insertionSort (byKeyGE rawKey) (dedupById l)).drop n).Forall
        (byKeyGE rawKey x) := by
  have hsorted := List.sorted_insertionSort (byKeyGE rawKey) (dedupById l)
  have hperm := List.perm_insertionSort (byKeyGE rawKey) (dedupById l)
  refine ⟨?_, rfl, ?_, ?_, ?_⟩
  · unfold postProcess
    rw [List.map_take]
    exact ((hperm.map RawScrutin.id).nodup_iff.mpr
      (dedupById_ids_nodup l)).sublist (List.take_sublist _ _)
  · exact List.Pairwise.sublist (List.take_sublist _ _) hsorted
  · unfold postProcess
    rw [List.length_take, hperm.length_eq]
  · have hsplit := List.take_append_drop n
      (List.insertionSort (byKeyGE rawKey) (dedupById l))
    have hpw : List.Pairwise (byKeyGE rawKey)
        ((List.insertionSort (byKeyGE rawKey) (dedupById l)).take n ++
         (List.insertionSort (byKeyGE rawKey) (dedupById l)).drop n) := by
      rw [hsplit]; exact hsorted
    rcases List.pairwise_append.mp hpw with ⟨_, _, hcross⟩
    rw [List.forall_iff_forall_mem]
    intro x hx
    rw [List.forall_iff_forall_mem]
    intro y hy
    exact hcross x hx y hy

/-! ## Claims C5 and C6: vote extraction -/

lemma walkAnc_pos_some :
    ∀ (n : Nat) (anc : List XElem) (p : String) (grp : Option String),
    (walkAnc n anc (some p) grp).1 = some p := by
  intro n
  induction n with
  | zero => intro anc p grp; rfl
  | succ k ih =>
    intro anc p grp
    cases anc with
    | nil => rfl
    | cons c rest =>
      simp only [walkAnc]
      split
      · rfl
      · exact ih rest p _

lemma findSome?_eq_some_mem {α β : Type} (f : α → Option β) :
    ∀ (l : List α) (b : β), l.findSome? f = some b → ∃ a ∈ l, f a = some b := by
  intro l
  induction l with
  | nil => intro b h; simp [List.findSome?] at h
  | cons a as ih =>
    intro b h
    rw [List.findSome?_cons] at h
    rcases hf : f a with _ | c
    · rw [hf] at h
      rcases ih b h with ⟨x, hx, hfx⟩
      exact ⟨x, List.mem_cons_of_mem a hx, hfx⟩
    · rw [hf] at h
      exact ⟨a, List.mem_cons_self a as, by rw [hf, ← h]⟩

/-- The position component of the walk is the first bucket hit among the
first `n` ancestors, independently of the group state. -/
lemma walkAnc_pos_char :
    ∀ (n : Nat) (anc : List XElem) (grp : Option String),
    (walkAnc n anc none grp).1 =
      ((anc.map fun c => localName c.tag).take n).findSome? bucketToPos := by
  intro n
  induction n with
  | zero => intro anc grp; simp [walkAnc]
  | succ k ih =>
    intro anc grp
    cases anc with
    | nil => simp [walkAnc]
    | cons c rest =>
      rw [List.map_cons, List.take_succ_cons, List.findSome?_cons]
      rcases hb : bucketToPos (localName c.tag) with _ | p
      · have hpos : posStep none c = none := by simp [posStep, hb]
        simp only [walkAnc, hpos, Option.isSome_none, Bool.false_and,
          Bool.false_eq_true, if_false]
        exact ih rest (grpStep grp c)
      · have hpos : posStep none c = some p := by simp [posStep, hb]
        simp only [walkAnc, hpos]
        by_cases hg : (grpStep grp c).isSome
        · simp [hg]
        · simp only [Bool.and_eq_true] at *
          simp [hg, walkAnc_pos_some]

lemma bucketToPos_range {l p : String} (h : bucketToPos l = some p) :
    p = "FOR" ∨ p = "AGAINST" ∨ p = "ABSTAIN" ∨ p = "NONVOTING" := by
  unfold bucketToPos at h
  split_ifs at h <;> simp_all

lemma mkVote_eq_some {pid : String} {pg : Option String × Option String}
    {v : Vote} (h : mkVote pid pg = some v) :
    ∃ ps grp, pg = (some ps, grp) ∧
      v = ⟨pid, ps, grp, none, none, none, none⟩ := by
  rcases pg with ⟨pos, grp⟩
  cases pos with
  | none => simp [mkVote] at h
  | some ps =>
    refine ⟨ps, grp, rfl, ?_⟩
    simpa [mkVote] using h.symm

lemma dedupVotes_subset :
    ∀ (l : List Vote) (seen : List (String × String × Option String))
      (v : Vote), v ∈ dedupVotes seen l → v ∈ l := by
  intro l
  induction l with
  | nil => intro seen v h; simp [dedupVotes] at h
  | cons w ws ih =>
    intro seen v h
    unfold dedupVotes at h
    by_cases hc : voteKey w ∈ seen
    · rw [if_pos hc] at h
      exact List.mem_cons_of_mem w (ih seen v h)
    · rw [if_neg hc] at h
      rcases List.mem_cons.mp h with rfl | h2
      · exact List.mem_cons_self v ws
      · exact List.mem_cons_of_mem w (ih _ v h2)

lemma rawVotes_shape (root : XElem) (v : Vote) (hv : v ∈ rawVotes root) :
    v.person_id ≠ "" ∧
    (v.position = "FOR" ∨ v.position = "AGAINST" ∨ v.position = "ABSTAIN" ∨
      v.position = "NONVOTING") := by
  unfold rawVotes at hv
  rcases List.mem_filterMap.mp hv with ⟨p, _, hfp⟩
  by_cases hpid : pyStrip p.1.text = ""
  · rw [if_pos hpid] at hfp
    exact absurd hfp (by simp)
  · rw [if_neg hpid] at hfp
    rcases mkVote_eq_some hfp with ⟨ps, grp, hpg, hvv⟩
    have hpos : (walkAnc 30 p.2 none none).1 = some ps := by rw [hpg]
    rw [walkAnc_pos_char] at hpos
    rcases findSome?_eq_some_mem bucketToPos _ ps hpos with ⟨_, _, hb⟩
    exact ⟨by rw [hvv]; exact hpid, by rw [hvv]; exact bucketToPos_range hb⟩

/-- C5: every emitted vote has a position drawn from the fixed bucket
vocabulary and a nonempty trimmed person id (references failing either are
dropped), and the position resolved by the bounded walk is exactly the
first bucket hit among the first 30 ancestors, closest first, never
overwritten. -/
theorem claim5_position_resolution (root : XElem) :
    (∀ v ∈ extractVotes root,
      (v.position = "FOR" ∨ v.position = "AGAINST" ∨ v.position = "ABSTAIN" ∨
        v.position = "NONVOTING") ∧ v.person_id ≠ "") ∧
    (∀ (anc : List XElem) (grp : Option String),
      (walkAnc 30 anc none grp).1 =
        ((anc.map fun c => localName c.tag).take 30).findSome? bucketToPos)
    := by
  constructor
  · intro v hv
    have hraw := dedupVotes_subset (rawVotes root) [] v hv
    have := rawVotes_shape root v hraw
    exact ⟨this.2, this.1⟩
  · intro anc grp
    exact walkAnc_pos_char 30 anc grp

def c5root : XElem :=
  .mk "scrutin" "" "" (xf [
    .mk "pour" "" "" (xf [.mk "acteurRef" "PA1" "" (xf [])])])

/-- C5 witness: the spec scenario, an acteurRef inside pour with no
organeRef anywhere yields position FOR and a nonempty person id. -/
theorem claim5_witness :
    ((Vote.mk "PA1" "FOR" none none none none none).position = "FOR" ∨
     (Vote.mk "PA1" "FOR" none none none none none).position = "AGAINST" ∨
     (Vote.mk "PA1" "FOR" none none none none none).position = "ABSTAIN" ∨
     (Vote.mk "PA1" "FOR" none none none none none).position = "NONVOTING") ∧
    (Vote.mk "PA1" "FOR" none none none none none).person_id ≠ "" :=
  (claim5_position_resolution c5root).1
    (Vote.mk "PA1" "FOR" none none none none none) (by decide)

lemma dedupVotes_filter (k : String × String × Option String) :
    ∀ (l : List Vote) (seen : List (String × String × Option String)),
    (dedupVotes seen l).filter (fun v => decide (voteKey v = k)) =
      if k ∈ seen then []
      else (l.filter fun v => decide (voteKey v = k)).take 1 := by
  intro l
  induction l with
  | nil => intro seen; by_cases hc : k ∈ seen <;> simp [dedupVotes, hc]
  | cons v vs ih =>
    intro seen
    unfold dedupVotes
    by_cases hv : voteKey v ∈ seen
    · rw [if_pos hv, ih seen]
      by_cases hk : k ∈ seen
      · rw [if_pos hk, if_pos hk]
      · rw [if_neg hk, if_neg hk, List.filter_cons]
        have hne : ¬ voteKey v = k := fun h => hk (h ▸ hv)
        simp [hne]
    · rw [if_neg hv, List.filter_cons]
      by_cases hvk : voteKey v = k
      · subst hvk
        have hk : ¬ voteKey v ∈ seen := hv
        rw [if_neg hk]
        simp only [decide_eq_true_eq, decide_True, if_true]
        rw [ih (voteKey v :: seen), if_pos (List.mem_cons_self _ _)]
        rw [List.filter_cons]
        simp
      · simp only [decide_eq_true_eq, hvk, if_false]
        rw [ih (voteKey v :: seen)]
        have : (k ∈ voteKey v :: seen) ↔ k ∈ seen := by
          constructor
          · intro h
            rcases List.mem_cons.mp h with h1 | h2
            · exact absurd h1.symm hvk
            · exact h2
          · exact fun h => List.mem_cons_of_mem _ h
        by_cases hk : k ∈ seen
        · rw [if_pos (this.mpr hk), if_pos hk]
        · rw [if_neg (fun h => hk (this.mp h)), if_neg hk, List.filter_cons]
          simp [hvk]

lemma dedupVotes_keys :
    ∀ (l : List Vote) (seen : List (String × String × Option String)),
    ((dedupVotes seen l).map voteKey).Nodup ∧
    ∀ k ∈ (dedupVotes seen l).map voteKey, k ∉ seen := by
  intro l
  induction l with
  | nil => intro seen; simp [dedupVotes]
  | cons v vs ih =>
    intro seen
    unfold dedupVotes
    by_cases hv : voteKey v ∈ seen
    · rw [if_pos hv]; exact ih seen
    · rw [if_neg hv]
      obtain ⟨ihn, ihs⟩ := ih (voteKey v :: seen)
      refine ⟨?_, ?_⟩
      · rw [List.map_cons, List.nodup_cons]
        exact ⟨fun h => ihs _ h (List.mem_cons_self _ _), ihn⟩
      · intro k hk
        rw [List.map_cons] at hk
        rcases List.mem_cons.mp hk with rfl | hk2
        · exact hv
        · exact fun hs => ihs k hk2 (List.mem_cons_of_mem _ hs)

/-- C6: within one scrutin the extractor collapses votes by the triple
(person_id, position, group): the emitted keys are pairwise distinct, and
for every key the output retains exactly the first raw occurrence in
traversal order. -/
theorem claim6_dedup_by_triple (root : XElem) :
    ((extractVotes root).map voteKey).Nodup ∧
    ∀ k, (extractVotes root).filter (fun v => decide (voteKey v = k)) =
      ((rawVotes root).filter fun v => decide (voteKey v = k)).take 1 := by
  refine ⟨(dedupVotes_keys (rawVotes root) []).1, ?_⟩
  intro k
  unfold extractVotes
  rw [dedupVotes_filter k (rawVotes root) []]
  simp

/-! ## Claim C10: export year parsing (corrected) -/

lemma byYearAux_none :
    ∀ (l : List Scrutin) (m : List (Int × List Scrutin)),
    byYearAux m l = none ↔ ∃ s ∈ l, pyInt (pyTake 4 s.date) = none := by
  intro l
  induction l with
  | nil => intro m; simp [byYearAux]
  | cons s rest ih =>
    intro m
    unfold byYearAux
    rcases hy : pyInt (pyTake 4 s.date) with _ | y
    · constructor
      · intro _; exact ⟨s, List.mem_cons_self _ _, hy⟩
      · intro _; rfl
    · rw [ih]
      constructor
      · rintro ⟨x, hx, hbad⟩
        exact ⟨x, List.mem_cons_of_mem _ hx, hbad⟩
      · rintro ⟨x, hx, hbad⟩
        rcases List.mem_cons.mp hx with rfl | hx2
        · rw [hy] at hbad; cases hbad
        · exact ⟨x, hx2, hbad⟩

def c10s : Scrutin :=
  { id := "AN-17-9", chamber := "AN", date := "9",
    title := "t", object := none, scrutin_type := none,
    result_status := none, counts := none, themes := [], source_url := none,
    votes := [] }

/-- C10 counterexample: a date shorter than four characters does not make
export_all raise when its prefix still parses as an integer; with date "9"
the export succeeds. -/
theorem claim10_counterexample :
    (exportAll [c10s]).isSome = true ∧ c10s.date.length < 4 := by
  refine ⟨by decide, by decide⟩

/-- C10 amended: export_all aborts with an unhandled exception exactly when
the date of some scrutin has a first-up-to-four-character slice that Python
int() cannot parse; a short date whose slice parses is partitioned
normally. -/
theorem claim10_export_raises_iff (scrutins : List Scrutin) :
    exportAll scrutins = none ↔
      ∃ s ∈ scrutins, pyInt (pyTake 4 s.date) = none := by
  unfold exportAll exportYears
  rw [Option.map_eq_none', Option.map_eq_none']
  exact byYearAux_none scrutins []

/-! ## Claim C9: year partitioning -/

lemma keyUnique {β : Type} :
    ∀ (m : List (Int × β)), (m.map Prod.fst).Nodup →
    ∀ p ∈ m, ∀ q ∈ m, p.1 = q.1 → p = q := by
  intro m
  induction m with
  | nil => intro _ p hp; cases hp
  | cons a as ih =>
    intro hn p hp q hq heq
    rw [List.map_cons, List.nodup_cons] at hn
    rcases List.mem_cons.mp hp with rfl | hp2
    · rcases List.mem_cons.mp hq with rfl | hq2
      · rfl
      · exact absurd (heq ▸ List.mem_map_of_mem Prod.fst hq2) hn.1
    · rcases List.mem_cons.mp hq with rfl | hq2
      · exact absurd (heq ▸ List.mem_map_of_mem Prod.fst hp2) hn.1
      · exact ih hn.2 p hp2 q hq2 heq

lemma insertYear_keys_nodup (m : List (Int × List Scrutin)) (y : Int)
    (s : Scrutin) (h : (m.map Prod.fst).Nodup) :
    ((insertYear m y s).map Prod.fst).Nodup := by
  unfold insertYear
  by_cases hc : m.any fun p => p.1 == y
  · rw [if_pos hc, List.map_map]
    have : m.map (Prod.fst ∘ fun p => if p.1 == y then (p.1, p.2 ++ [s]) else p)
        = m.map Prod.fst := by
      apply List.map_congr_left
      intro p _
      simp only [Function.comp_apply]
      split <;> rfl
    rw [this]; exact h
  · rw [if_neg hc, List.map_append, List.map_cons, List.map_nil,
      List.nodup_append]
    refine ⟨h, List.nodup_singleton _, ?_⟩
    intro a ha hb
    simp only [List.mem_singleton] at hb
    subst hb
    rcases List.mem_map.mp ha with ⟨p, hp, hfst⟩
    exact hc (List.any_eq_true.mpr ⟨p, hp, by simp [hfst]⟩)

lemma insertYear_year_inv (m : List (Int × List Scrutin)) (y : Int)
    (s : Scrutin)
    (h : ∀ p ∈ m, ∀ x ∈ p.2, pyInt (pyTake 4 x.date) = some p.1)
    (hy : pyInt (pyTake 4 s.date) = some y) :
    ∀ p ∈ insertYear m y s, ∀ x ∈ p.2,
      pyInt (pyTake 4 x.date) = some p.1 := by
  intro p hp x hx
  unfold insertYear at hp
  by_cases hc : m.any fun q => q.1 == y
  · rw [if_pos hc] at hp
    rcases List.mem_map.mp hp with ⟨q, hq, hupd⟩
    by_cases hq1 : q.1 == y
    · simp only [hq1, if_true] at hupd
      rw [← hupd] at hx ⊢
      rcases List.mem_append.mp hx with hold | hnew
      · exact h q hq x hold
      · simp only [List.mem_singleton] at hnew
        subst hnew
        rw [hy]
        exact congrArg some (eq_of_beq hq1).symm
    · simp only [hq1, Bool.false_eq_true, if_false] at hupd
      rw [← hupd] at hx ⊢
      exact h q hq x hx
  · rw [if_neg hc] at hp
    rcases List.mem_append.mp hp with hold | hnew
    · exact h p hold x hx
    · simp only [List.mem_singleton] at hnew
      subst hnew
      simp only [List.mem_singleton] at hx
      subst hx
      exact hy

lemma insertYear_grow (m : List (Int × List Scrutin)) (y : Int) (s : Scrutin) :
    ∀ p ∈ m, ∃ q ∈ insertYear m y s, q.1 = p.1 ∧ ∀ x ∈ p.2, x ∈ q.2 := by
  intro p hp
  unfold insertYear
  by_cases hc : m.any fun q => q.1 == y
  · rw [if_pos hc]
    refine ⟨if p.1 == y then (p.1, p.2 ++ [s]) else p,
      List.mem_map_of_mem _ hp, ?_, ?_⟩
    · split <;> rfl
    · intro x hx
      split
      · exact List.mem_append_left _ hx
      · exact hx
  · rw [if_neg hc]
    exact ⟨p, List.mem_append_left _ hp, rfl, fun x hx => hx⟩

lemma insertYear_self (m : List (Int × List Scrutin)) (y : Int) (s : Scrutin) :
    ∃ q ∈ insertYear m y s, q.1 = y ∧ s ∈ q.2 := by
  unfold insertYear
  by_cases hc : m.any fun q => q.1 == y
  · rw [if_pos hc]
    rcases List.any_eq_true.mp hc with ⟨p, hp, hpy⟩
    refine ⟨(p.1, p.2 ++ [s]), ?_, eq_of_beq hpy, by simp⟩
    have : (p.1, p.2 ++ [s]) = if p.1 == y then (p.1, p.2 ++ [s]) else p := by
      rw [if_pos hpy]
    rw [this]
    exact List.mem_map_of_mem _ hp
  · rw [if_neg hc]
    exact ⟨(y, [s]), List.mem_append_right _ (by simp), rfl, by simp⟩

lemma byYearAux_nodup :
    ∀ (l : List Scrutin) (m out : List (Int × List Scrutin)),
    byYearAux m l = some out → (m.map Prod.fst).Nodup →
    (out.map Prod.fst).Nodup := by
  intro l
  induction l with
  | nil =>
    intro m out h hm
    rw [show out = m from (Option.some_injective _ h.symm)]
    exact hm
  | cons s rest ih =>
    intro m out h hm
    unfold byYearAux at h
    rcases hy : pyInt (pyTake 4 s.date) with _ | y
    · rw [hy] at h; cases h
    · rw [hy] at h
      exact ih _ out h (insertYear_keys_nodup m y s hm)

lemma byYearAux_year_inv :
    ∀ (l : List Scrutin) (m out : List (Int × List Scrutin)),
    byYearAux m l = some out →
    (∀ p ∈ m, ∀ x ∈ p.2, pyInt (pyTake 4 x.date) = some p.1) →
    ∀ p ∈ out, ∀ x ∈ p.2, pyInt (pyTake 4 x.date) = some p.1 := by
  intro l
  induction l with
  | nil =>
    intro m out h hm
    rw [show out = m from (Option.some_injective _ h.symm)]
    exact hm
  | cons s rest ih =>
    intro m out h hm
    unfold byYearAux at h
    rcases hy : pyInt (pyTake 4 s.date) with _ | y
    · rw [hy] at h; cases h
    · rw [hy] at h
      exact ih _ out h (insertYear_year_inv m y s hm hy)

lemma byYearAux_grow :
    ∀ (l : List Scrutin) (m out : List (Int × List Scrutin)),
    byYearAux m l = some out →
    ∀ p ∈ m, ∃ q ∈ out, q.1 = p.1 ∧ ∀ x ∈ p.2, x ∈ q.2 := by
  intro l
  induction l with
  | nil =>
    intro m out h p hp
    rw [show out = m from (Option.some_injective _ h.symm)]
    exact ⟨p, hp, rfl, fun x hx => hx⟩
  | cons s rest ih =>
    intro m out h p hp
    unfold byYearAux at h
    rcases hy : pyInt (pyTake 4 s.date) with _ | y
    · rw [hy] at h; cases h
    · rw [hy] at h
      rcases insertYear_grow m y s p hp with ⟨q1, hq1, hk1, hsub1⟩
      rcases ih _ out h q1 hq1 with ⟨q2, hq2, hk2, hsub2⟩
      exact ⟨q2, hq2, hk2.trans hk1, fun x hx => hsub2 x (hsub1 x hx)⟩

lemma byYearAux_covers :
    ∀ (l : List Scrutin) (m out : List (Int × List Scrutin)),
    byYearAux m l = some out →
    ∀ s ∈ l, ∃ q ∈ out, pyInt (pyTake 4 s.date) = some q.1 ∧ s ∈ q.2 := by
  intro l
  induction l with
  | nil => intro m out _ s hs; cases hs
  | cons s0 rest ih =>
    intro m out h s hs
    unfold byYearAux at h
    rcases hy : pyInt (pyTake 4 s0.date) with _ | y
    · rw [hy] at h; cases h
    · rw [hy] at h
      rcases List.mem_cons.mp hs with rfl | hs2
      · rcases insertYear_self m y s with ⟨q1, hq1, hk1, hmem1⟩
        rcases byYearAux_grow rest _ out h q1 hq1 with ⟨q2, hq2, hk2, hsub⟩
        exact ⟨q2, hq2, by rw [hy, hk2, hk1], hsub s hmem1⟩
      · exact ih _ out h s hs2

/-- C9: every scrutin appears in the index, lands in exactly one per-year
partition, the one keyed by the integer value of the first four characters
of its date, and every partition is sorted descending by (date, id). -/
theorem claim9_year_partitioning (scrutins : List Scrutin)
    (parts : List (Int × List Scrutin))
    (h : exportYears scrutins = some parts) :
    (∀ s ∈ scrutins, ixProj s ∈ indexItems scrutins) ∧
    (parts.map Prod.fst).Nodup ∧
    (∀ s ∈ scrutins, ∃ p ∈ parts,
      pyInt (pyTake 4 s.date) = some p.1 ∧ s ∈ p.2) ∧
    (∀ s ∈ scrutins, ∀ p ∈ parts,
      (s ∈ p.2 ↔ pyInt (pyTake 4 s.date) = some p.1)) ∧
    (∀ p ∈ parts, List.Sorted (byKeyGE scrKey) p.2) := by
  unfold exportYears at h
  rcases Option.map_eq_some'.mp h with ⟨parts0, hby, hparts⟩
  have hkeys : parts.map Prod.fst = parts0.map Prod.fst := by
    rw [← hparts, List.map_map]
    apply List.map_congr_left
    intro p _
    rfl
  have hnodup0 : (parts0.map Prod.fst).Nodup :=
    byYearAux_nodup scrutins [] parts0 hby (by simp)
  have hyear0 : ∀ p ∈ parts0, ∀ x ∈ p.2,
      pyInt (pyTake 4 x.date) = some p.1 :=
    byYearAux_year_inv scrutins [] parts0 hby (by simp)
  refine ⟨?_, ?_, ?_, ?_, ?_⟩
  · intro s hs
    exact (List.perm_insertionSort (byKeyGE ixKey) _).mem_iff.mpr
      (List.mem_map_of_mem ixProj hs)
  · rw [hkeys]; exact hnodup0
  · intro s hs
    rcases byYearAux_covers scrutins [] parts0 hby s hs with ⟨q, hq, hk, hmem⟩
    refine ⟨(q.1, List.insertionSort (byKeyGE scrKey) q.2), ?_, hk, ?_⟩
    · rw [← hparts]
      exact List.mem_map_of_mem _ hq
    · exact (List.perm_insertionSort (byKeyGE scrKey) _).mem_iff.mpr hmem
  · intro s hs p hp
    rw [← hparts] at hp
    rcases List.mem_map.mp hp with ⟨q, hq, hpq⟩
    constructor
    · intro hmem
      rw [← hpq] at hmem
      have : s ∈ q.2 :=
        (List.perm_insertionSort (byKeyGE scrKey) _).mem_iff.mp hmem
      rw [← hpq]
      exact hyear0 q hq s this
    · intro hk
      rcases byYearAux_covers scrutins [] parts0 hby s hs with
        ⟨q', hq', hk', hmem'⟩
      have hqq : q = q' := by
        apply keyUnique parts0 hnodup0 q hq q' hq'
        rw [← hpq] at hk
        rw [hk'] at hk
        exact (Option.some_injective _ hk).symm
      rw [← hpq]
      exact (List.perm_insertionSort (byKeyGE scrKey) _).mem_iff.mpr
        (hqq ▸ hmem')
  · intro p hp
    rw [← hparts] at hp
    rcases List.mem_map.mp hp with ⟨q, _, hpq⟩
    rw [← hpq]
    exact List.sorted_insertionSort (byKeyGE scrKey) q.2

def c9a : Scrutin :=
  { id := "AN-17-1", chamber := "AN", date := "2024-06-01",
    title := "a", object := none, scrutin_type := none,
    result_status := none, counts := none, themes := [], source_url := none,
    votes := [] }

def c9b : Scrutin :=
  { id := "AN-17-2", chamber := "AN", date := "2023-01-02",
    title := "b", object := none, scrutin_type := none,
    result_status := none, counts := none, themes := [], source_url := none,
    votes := [] }

def c9parts : List (Int × List Scrutin) := [(2024, [c9a]), (2023, [c9b])]

/-- C9 witness: two scrutins in different years produce two partitions with
distinct year keys. -/
theorem claim9_witness : (c9parts.map Prod.fst).Nodup :=
  (claim9_year_partitioning [c9a, c9b] c9parts (by decide)).2.1

/-! ## Claim C3: people directory (corrected) -/

lemma lookup_update_self (m : List (String × PersonEntry)) (pid : String)
    (v : Vote) :
    (m.map fun p => if p.1 == pid then (p.1, absorb p.2 v) else p).lookup pid
      = (m.lookup pid).map fun e => absorb e v := by
  induction m with
  | nil => rfl
  | cons q qs ih =>
    rw [List.map_cons]
    by_cases hq : (q.1 == pid) = true
    · have hpq : (pid == q.1) = true := by
        rw [beq_iff_eq] at hq ⊢; exact hq.symm
      rw [if_pos hq]
      simp [List.lookup, hpq]
    · have hpq : (pid == q.1) = false := by
        rw [beq_iff_eq] at hq
        rw [beq_eq_false_iff_ne]
        exact fun h => hq h.symm
      rw [if_neg hq]
      simp only [List.lookup, hpq]
      simpa using ih

lemma lookup_update_other (m : List (String × PersonEntry))
    (pid k : String) (v : Vote) (hne : k ≠ pid) :
    (m.map fun p => if p.1 == pid then (p.1, absorb p.2 v) else p).lookup k =
      m.lookup k := by
  induction m with
  | nil => rfl
  | cons q qs ih =>
    rw [List.map_cons]
    by_cases hk : (k == q.1) = true
    · have hq : (q.1 == pid) = false := by
        rw [beq_eq_false_iff_ne]
        rw [beq_iff_eq] at hk
        exact fun h => hne (hk.trans h)
      rw [hq]
      simp [List.lookup, hk]
    · have hk' : (k == q.1) = false := by
        rw [Bool.not_eq_true] at hk; exact hk
      by_cases hq : (q.1 == pid) = true
      · rw [if_pos hq]
        simp only [List.lookup, hk']
        simpa using ih
      · rw [if_neg hq]
        simp only [List.lookup, hk']
        simpa using ih

lemma lookup_append_single {β : Type} (m : List (String × β))
    (k pid : String) (e : β) :
    (m ++ [(pid, e)]).lookup k =
      match m.lookup k with
      | some v => some v
      | none => if k == pid then some e else none := by
  induction m with
  | nil =>
    cases hk : k == pid <;> simp [List.lookup, hk]
  | cons q qs ih =>
    rw [List.cons_append]
    cases hk : k == q.1 with
    | true => simp [List.lookup, hk]
    | false =>
      simp only [List.lookup, hk]
      simpa using ih

lemma lookup_none_iff {β : Type} :
    ∀ (m : List (String × β)) (k : String),
    m.lookup k = none ↔ k ∉ m.map Prod.fst := by
  intro m
  induction m with
  | nil => intro k; simp [List.lookup]
  | cons q qs ih =>
    intro k
    cases hk : k == q.1 with
    | true =>
      simp only [List.lookup, hk, List.map_cons]
      rw [beq_iff_eq] at hk
      simp [hk]
    | false =>
      simp only [List.lookup, hk, List.map_cons]
      rw [ih]
      rw [beq_eq_false_iff_ne] at hk
      simp [List.mem_cons, hk]

lemma foldl_step_lookup :
    ∀ (l : List (String × Vote)) (m : List (String × PersonEntry))
      (pid : String),
    (l.foldl stepPerson m).lookup pid =
      (match m.lookup pid with
       | some e => some (absorbs e (pidVotes pid l))
       | none => perPid (pidVotes pid l)) := by
  intro l
  induction l with
  | nil =>
    intro m pid
    simp only [List.foldl_nil, pidVotes, List.filter_nil]
    cases h : m.lookup pid <;> simp [h, absorbs, perPid]
  | cons cv rest ih =>
    intro m pid
    rw [List.foldl_cons, ih]
    by_cases hvp : cv.2.person_id = pid
    · have hfil : pidVotes pid (cv :: rest) = cv :: pidVotes pid rest := by
        unfold pidVotes
        rw [List.filter_cons]
        simp [hvp]
      rw [hfil]
      cases hm : m.lookup pid with
      | some e =>
        have hsome : (m.lookup cv.2.person_id).isSome = true := by
          rw [hvp, hm]; rfl
        unfold stepPerson
        rw [if_pos hsome, hvp, lookup_update_self m pid cv.2, hm]
        rfl
      | none =>
        have hnone : ¬ (m.lookup cv.2.person_id).isSome = true := by
          rw [hvp, hm]; simp
        unfold stepPerson
        rw [if_neg hnone, lookup_append_single, hm]
        have hpid : (pid == cv.2.person_id) = true := by
          rw [beq_iff_eq]; exact hvp.symm

        simp only [hpid, if_true]
        rfl
    · have hfil : pidVotes pid (cv :: rest) = pidVotes pid rest := by
        unfold pidVotes
        rw [List.filter_cons]
        simp [hvp]
      rw [hfil]
      have hstep : (stepPerson m cv).lookup pid = m.lookup pid := by
        unfold stepPerson
        by_cases hs : (m.lookup cv.2.person_id).isSome = true
        · rw [if_pos hs]
          exact lookup_update_other m cv.2.person_id pid cv.2
            fun h => hvp h.symm
        · rw [if_neg hs, lookup_append_single]
          cases hm : m.lookup pid with
          | some e => rfl
          | none =>
            have hpid : (pid == cv.2.person_id) = false := by
              rw [beq_eq_false_iff_ne]
              exact fun h => hvp h.symm
            simp [hpid]
      rw [hstep]

lemma foldl_step_keys_nodup :
    ∀ (l : List (String × Vote)) (m : List (String × PersonEntry)),
    (m.map Prod.fst).Nodup → ((l.foldl stepPerson m).map Prod.fst).Nodup := by
  intro l
  induction l with
  | nil => intro m hm; exact hm
  | cons cv rest ih =>
    intro m hm
    rw [List.foldl_cons]
    apply ih
    unfold stepPerson
    by_cases hs : (m.lookup cv.2.person_id).isSome = true
    · rw [if_pos hs, List.map_map]
      have : m.map (Prod.fst ∘ fun p =>
          if p.1 == cv.2.person_id then (p.1, absorb p.2 cv.2) else p)
          = m.map Prod.fst := by
        apply List.map_congr_left
        intro p _
        simp only [Function.comp_apply]
        split <;> rfl
      rw [this]; exact hm
    · rw [if_neg hs, List.map_append, List.map_cons, List.map_nil,
        List.nodup_append]
      refine ⟨hm, List.nodup_singleton _, ?_⟩
      intro a ha hb
      simp only [List.mem_singleton] at hb
      subst hb
      have : m.lookup cv.2.person_id = none := by
        cases h : m.lookup cv.2.person_id with
        | none => rfl
        | some e => rw [h] at hs; exact absurd rfl hs
      exact (lookup_none_iff m cv.2.person_id).mp this ha

lemma absorb_person_id (e : PersonEntry) (v : Vote) :
    (absorb e v).person_id = e.person_id := by
  unfold absorb absorbName absorbConstituency absorbGroup
  split_ifs <;> rfl

lemma absorb_chamber (e : PersonEntry) (v : Vote) :
    (absorb e v).chamber = e.chamber := by
  unfold absorb absorbName absorbConstituency absorbGroup
  split_ifs <;> rfl

lemma absorb_name (e : PersonEntry) (v : Vote) :
    (absorb e v).name = if pyTruthy v.name then v.name else e.name := by
  unfold absorb absorbName absorbConstituency absorbGroup
  split_ifs <;> rfl

lemma absorb_group (e : PersonEntry) (v : Vote) :
    (absorb e v).group = if pyTruthy v.group then v.group else e.group := by
  unfold absorb absorbName absorbConstituency absorbGroup
  split_ifs <;> rfl

lemma absorb_constituency (e : PersonEntry) (v : Vote) :
    (absorb e v).constituency =
      if pyTruthy v.constituency then v.constituency else e.constituency := by
  unfold absorb absorbName absorbConstituency absorbGroup
  split_ifs <;> rfl

lemma absorbs_person_id :
    ∀ (l : List (String × Vote)) (e : PersonEntry),
    (absorbs e l).person_id = e.person_id := by
  intro l
  induction l with
  | nil => intro e; rfl
  | cons cv rest ih =>
    intro e
    rw [show absorbs e (cv :: rest) = absorbs (absorb e cv.2) rest from rfl,
      ih, absorb_person_id]

lemma absorbs_chamber :
    ∀ (l : List (String × Vote)) (e : PersonEntry),
    (absorbs e l).chamber = e.chamber := by
  intro l
  induction l with
  | nil => intro e; rfl
  | cons cv rest ih =>
    intro e
    rw [show absorbs e (cv :: rest) = absorbs (absorb e cv.2) rest from rfl,
      ih, absorb_chamber]

lemma absorbs_name :
    ∀ (l : List (String × Vote)) (e : PersonEntry),
    (absorbs e l).name =
      (match l.reverse.find? (fun cv => pyTruthy cv.2.name) with
       | some cv => cv.2.name
       | none => e.name) := by
  intro l
  induction l with
  | nil => intro e; rfl
  | cons cv rest ih =>
    intro e
    rw [show absorbs e (cv :: rest) = absorbs (absorb e cv.2) rest from rfl,
      ih, List.reverse_cons, List.find?_append]
    cases hf : rest.reverse.find? (fun cv => pyTruthy cv.2.name) with
    | some cv2 => simp [hf]
    | none =>
      rw [absorb_name]
      by_cases ht : pyTruthy cv.2.name
      · simp [List.find?, ht]
      · simp only [Bool.not_eq_true] at ht
        simp [List.find?, ht]

lemma absorbs_group :
    ∀ (l : List (String × Vote)) (e : PersonEntry),
    (absorbs e l).group =
      (match l.reverse.find? (fun cv => pyTruthy cv.2.group) with
       | some cv => cv.2.group
       | none => e.group) := by
  intro l
  induction l with
  | nil => intro e; rfl
  | cons cv rest ih =>
    intro e
    rw [show absorbs e (cv :: rest) = absorbs (absorb e cv.2) rest from rfl,
      ih, List.reverse_cons, List.find?_append]
    cases hf : rest.reverse.find? (fun cv => pyTruthy cv.2.group) with
    | some cv2 => simp [hf]
    | none =>
      rw [absorb_group]
      by_cases ht : pyTruthy cv.2.group
      · simp [List.find?, ht]
      · simp only [Bool.not_eq_true] at ht
        simp [List.find?, ht]

lemma absorbs_constituency :
    ∀ (l : List (String × Vote)) (e : PersonEntry),
    (absorbs e l).constituency =
      (match l.reverse.find? (fun cv => pyTruthy cv.2.constituency) with
       | some cv => cv.2.constituency
       | none => e.constituency) := by
  intro l
  induction l with
  | nil => intro e; rfl
  | cons cv rest ih =>
    intro e
    rw [show absorbs e (cv :: rest) = absorbs (absorb e cv.2) rest from rfl,
      ih, List.reverse_cons, List.find?_append]
    cases hf : rest.reverse.find? (fun cv => pyTruthy cv.2.constituency) with
    | some cv2 => simp [hf]
    | none =>
      rw [absorb_constituency]
      by_cases ht : pyTruthy cv.2.constituency
      · simp [List.find?, ht]
      · simp only [Bool.not_eq_true] at ht
        simp [List.find?, ht]

lemma peopleMap_lookup (scrutins : List Scrutin) (pid : String) :
    (peopleMap scrutins).lookup pid =
      perPid (pidVotes pid (flatVotes scrutins)) := by
  unfold peopleMap
  rw [foldl_step_lookup]
  rfl

/-- C3 amended: the people directory has one entry per distinct person_id
observed over all votes; for that person the chamber comes from the first
vote seen, the name is the last non-empty name seen falling back to the
name value of the first vote (even when null), and group and constituency hold
the last non-empty value seen and stay absent otherwise — updates are
truthiness-guarded, not plain last-write; the final list is the entries
sorted ascending by (name-or-empty, person_id). -/
theorem claim3_people_directory (scrutins : List Scrutin) :
    ((peopleMap scrutins).map Prod.fst).Nodup ∧
    (∀ pid, ((peopleMap scrutins).lookup pid).isSome = true ↔
      pid ∈ (flatVotes scrutins).map fun cv => cv.2.person_id) ∧
    (∀ pid e, (peopleMap scrutins).lookup pid = some e →
      ∃ cv0 rest, pidVotes pid (flatVotes scrutins) = cv0 :: rest ∧
        e.person_id = cv0.2.person_id ∧
        e.chamber = cv0.1 ∧
        e.name = (match (pidVotes pid (flatVotes scrutins)).reverse.find?
            (fun cv => pyTruthy cv.2.name) with
          | some cv => cv.2.name
          | none => cv0.2.name) ∧
        e.group = (match (pidVotes pid (flatVotes scrutins)).reverse.find?
            (fun cv => pyTruthy cv.2.group) with
          | some cv => cv.2.group
          | none => none) ∧
        e.constituency =
          (match (pidVotes pid (flatVotes scrutins)).reverse.find?
            (fun cv => pyTruthy cv.2.constituency) with
          | some cv => cv.2.constituency
          | none => none)) ∧
    List.Sorted (byKeyLe personKey) (peopleList scrutins) ∧
    (peopleList scrutins).Perm ((peopleMap scrutins).map fun p => p.2) := by
  refine ⟨?_, ?_, ?_, ?_, ?_⟩
  · exact foldl_step_keys_nodup (flatVotes scrutins) [] (by simp)
  · intro pid
    rw [peopleMap_lookup]
    cases hpv : pidVotes pid (flatVotes scrutins) with
    | nil =>
      refine ⟨fun h => absurd h (by simp [perPid]), fun h => ?_⟩
      rcases List.mem_map.mp h with ⟨cv, hcv, hpid⟩
      have hmem : cv ∈ pidVotes pid (flatVotes scrutins) := by
        unfold pidVotes
        exact List.mem_filter.mpr ⟨hcv, by rw [beq_iff_eq]; exact hpid⟩
      rw [hpv] at hmem
      cases hmem
    | cons cv0 rest =>
      refine ⟨fun _ => ?_, fun _ => rfl⟩
      have hcv0 : cv0 ∈ pidVotes pid (flatVotes scrutins) := by
        rw [hpv]
        exact List.mem_cons_self _ _
      unfold pidVotes at hcv0
      have hsplit := List.mem_filter.mp hcv0
      exact List.mem_map.mpr
        ⟨cv0, hsplit.1, by rw [← beq_iff_eq]; exact hsplit.2⟩
  · intro pid e h
    rw [peopleMap_lookup] at h
    cases hpv : pidVotes pid (flatVotes scrutins) with
    | nil => rw [hpv] at h; simp [perPid] at h
    | cons cv0 rest =>
      rw [hpv] at h
      simp only [perPid, Option.some_inj] at h
      refine ⟨cv0, rest, rfl, ?_, ?_, ?_, ?_, ?_⟩
      · rw [← h, absorbs_person_id, absorb_person_id]
        rfl
      · rw [← h, absorbs_chamber, absorb_chamber]
        rfl
      · rw [← h, absorbs_name, List.reverse_cons, List.find?_append]
        cases hf : rest.reverse.find? (fun cv => pyTruthy cv.2.name) with
        | some cv2 => simp [hf]
        | none =>
          rw [absorb_name]
          by_cases ht : pyTruthy cv0.2.name
          · simp [List.find?, ht]
          · simp only [Bool.not_eq_true] at ht
            simp [List.find?, ht, initE]
      · rw [← h, absorbs_group, List.reverse_cons, List.find?_append]
        cases hf : rest.reverse.find? (fun cv => pyTruthy cv.2.group) with
        | some cv2 => simp [hf]
        | none =>
          rw [absorb_group]
          by_cases ht : pyTruthy cv0.2.group
          · simp [List.find?, ht]
          · simp only [Bool.not_eq_true] at ht
            simp [List.find?, ht, initE]
      · rw [← h, absorbs_constituency, List.reverse_cons, List.find?_append]
        cases hf : rest.reverse.find?
            (fun cv => pyTruthy cv.2.constituency) with
        | some cv2 => simp [hf]
        | none =>
          rw [absorb_constituency]
          by_cases ht : pyTruthy cv0.2.constituency
          · simp [List.find?, ht]
          · simp only [Bool.not_eq_true] at ht
            simp [List.find?, ht, initE]
  · exact List.sorted_insertionSort (byKeyLe personKey) _
  · exact List.perm_insertionSort (byKeyLe personKey) _

def c3v1 : Vote := ⟨"P1", "FOR", none, none, some "A", none, none⟩

def c3v2 : Vote := ⟨"P1", "AGAINST", none, none, none, none, none⟩

def c3s : Scrutin :=
  { id := "AN-17-5", chamber := "AN", date := "2024-06-01",
    title := "t", object := none, scrutin_type := none,
    result_status := none, counts := none, themes := [], source_url := none,
    votes := [c3v1, c3v2] }

/-- C3 counterexample: two votes for the same person, the first carrying
name A and the last carrying no name; the directory entry keeps A, while
the claim says the name field carries the value from the last vote in scan
order (which is null here). -/
theorem claim3_counterexample :
    (peopleList [c3s]).map PersonEntry.name = [some "A"] ∧
    ((flatVotes [c3s]).getLast?.map fun cv => cv.2.name) = some none ∧
    some "A" ≠ (none : Option String) := by
  refine ⟨by decide, by decide, by decide⟩

/-- C3 witness: the directory of a concrete scan is keyed without
duplicates, via the amended theorem. -/
theorem claim3_witness : ((peopleMap [c3s]).map Prod.fst).Nodup :=
  (claim3_people_directory [c3s]).1

end Freq
